import Mathlib

/-!
Verification of the memview in-process memory-instrumentation runtime
(`src/memview.h`) against its design specification.

The repository ships only the public header; the runtime behind it is
modelled here from the specification document (arena sizing, intern
tables, live allocation index, event encoder, frame sequencing).  The
header's signature surface itself is embedded directly from the source.
-/

namespace Memview

/-- Return status of `memview_init`.  The C function returns an `int`;
the spec names the failure statuses `InsufficientBuffer` and
`AlreadyInitialized`, both in the `ConfigurationError` taxonomy class. -/
inductive Status where
  | Success
  | InsufficientBuffer
  | AlreadyInitialized
deriving DecidableEq, Repr

/-- Modelled from the spec: the error taxonomy places undersized buffer
and double-init in the fatal `ConfigurationError` class. -/
def Status.isConfigurationError : Status → Bool
  | .InsufficientBuffer => true
  | .AlreadyInitialized => true
  | .Success => false

/-- A record of the binary wire stream (conceptual, per spec §6: tagged
records grouped into frames). -/
inductive WireRecord where
  | stringDefine (id : Nat) (bytes : List Nat)
  | stringRef (id : Nat)
  | stackDefine (id : Nat) (bytes : List Nat)
  | stackRef (id : Nat)
  | allocRec (address size region : Nat)
  | freeRec (address : Nat)
  | frameBoundary (seq : Nat)
  | protocolViolation
  | evictionMarker
  | tableFullMarker
deriving DecidableEq, Repr

/-- A live allocation record: address, size, caller-defined region tag,
and the stack reference active at allocation time (spec §3). -/
structure AllocRecord where
  address : Nat
  size : Nat
  region : Nat
  stackRef : Nat
deriving DecidableEq, Repr

/-- The runtime context: all process-wide instrumentation state
(spec §3/§9), carved out of the caller-supplied buffer at init. -/
structure Context where
  initialized : Bool
  stringCap : Nat
  liveCap : Nat
  nextStringId : Nat
  strings : List (List Nat × Nat)
  stringTableFullMarked : Bool
  stackTable : List (Nat × List Nat)
  live : List AllocRecord
  wire : List WireRecord
  frameSeq : Nat
  currentStack : Nat
  freeMisses : Nat
deriving DecidableEq, Repr

/-- The context before any successful `memview_init`. -/
def initialContext : Context :=
  { initialized := false
    stringCap := 0
    liveCap := 0
    nextStringId := 1
    strings := []
    stringTableFullMarked := false
    stackTable := []
    live := []
    wire := []
    frameSeq := 0
    currentStack := 0
    freeMisses := 0 }

/-- Modelled from the spec: capacity of the string intern table,
sized proportionally to the `bytes_for_stacktrace` budget (§4.1). -/
def stringTableCapacity (bytes_for_stacktrace : Nat) : Nat :=
  64 + bytes_for_stacktrace / 64

/-- Modelled from the spec: capacity of the live allocation index,
sized proportionally to the `bytes_for_stacktrace` budget (§4.1). -/
def liveIndexCapacity (bytes_for_stacktrace : Nat) : Nat :=
  64 + bytes_for_stacktrace / 64

/-- Modelled from the spec: `memview_calc_min_required_memory` is missing
from the sources (only declared in `src/memview.h`); per §4.1 it computes,
as a pure function, the exact total bytes needed to back the arena
partitions (intern tables, live index, outbound queue, stacktrace budget)
for a given `bytes_for_stacktrace` budget. -/
def memview_calc_min_required_memory (bytes_for_stacktrace : Nat) : Nat :=
  512 + 32 * stringTableCapacity bytes_for_stacktrace
      + 32 * liveIndexCapacity bytes_for_stacktrace
      + bytes_for_stacktrace

/-- Modelled from the spec: `memview_init` is missing from the sources
(only declared in `src/memview.h`); per §4.1/§6 it fails with
`AlreadyInitialized` on double-init, fails with `InsufficientBuffer` when
`buffer_size` is below the computed minimum, retains no partial state on
failure, and otherwise partitions the buffer and starts a fresh session.
(The buffer pointer itself, and its alignment, have no shallow
counterpart; only the size check is modelled.) -/
def memview_init (buffer_size bytes_for_stacktrace : Nat) (c : Context) :
    Status × Context :=
  if c.initialized then
    (.AlreadyInitialized, c)
  else if buffer_size < memview_calc_min_required_memory bytes_for_stacktrace then
    (.InsufficientBuffer, c)
  else
    (.Success,
      { initialized := true
        stringCap := stringTableCapacity bytes_for_stacktrace
        liveCap := liveIndexCapacity bytes_for_stacktrace
        nextStringId := 1
        strings := []
        stringTableFullMarked := false
        stackTable := []
        live := []
        wire := []
        frameSeq := 0
        currentStack := 0
        freeMisses := 0 })

/-- Modelled from the spec: `memview_deinit` is missing from the sources;
it ends the session and releases the association with the caller's
buffer (§4.6). -/
def memview_deinit (_ : Context) : Context := initialContext

/-- Content lookup in the string intern table. -/
def lookupString (s : List Nat) : List (List Nat × Nat) → Option Nat
  | [] => none
  | (t, id) :: rest => if t = s then some id else lookupString s rest

/-- Modelled from the spec: `memview_msg_stringid` is missing from the
sources (only declared in `src/memview.h`); per §4.2 it probes the intern
table by content: on hit it returns the existing identifier and emits only
a lightweight reference record; on miss it assigns the next dense
identifier and emits one "define string" record carrying the raw bytes;
on table exhaustion it emits a "table full" marker once and silently
drops further new definitions (the identifier returned on that
unspecified path is modelled as 0). -/
def memview_msg_stringid (s : List Nat) (c : Context) : Nat × Context :=
  match lookupString s c.strings with
  | some id => (id, { c with wire := c.wire ++ [.stringRef id] })
  | none =>
    if c.strings.length < c.stringCap then
      (c.nextStringId,
        { c with
            strings := c.strings ++ [(s, c.nextStringId)]
            nextStringId := c.nextStringId + 1
            wire := c.wire ++ [.stringDefine c.nextStringId s] })
    else if c.stringTableFullMarked then
      (0, c)
    else
      (0, { c with
              stringTableFullMarked := true
              wire := c.wire ++ [.tableFullMarker] })

/-- Identifier lookup in the stack intern table. -/
def lookupStack (id : Nat) : List (Nat × List Nat) → Option (List Nat)
  | [] => none
  | (i, t) :: rest => if i = id then some t else lookupStack id rest

/-- Modelled from the spec: `memview_msg_stack` is missing from the
sources; per §4.2 it is keyed by the caller-supplied identifier: first
use emits a full definition, repeat use with equal content emits a
reference, reuse with different content is a protocol violation.  It also
establishes the stack context for subsequent allocations (§4.3). -/
def memview_msg_stack (stack_id : Nat) (s : List Nat) (c : Context) : Context :=
  match lookupStack stack_id c.stackTable with
  | none =>
      { c with
          stackTable := c.stackTable ++ [(stack_id, s)]
          wire := c.wire ++ [.stackDefine stack_id s]
          currentStack := stack_id }
  | some t =>
      if t = s then
        { c with wire := c.wire ++ [.stackRef stack_id], currentStack := stack_id }
      else
        { c with wire := c.wire ++ [.protocolViolation], currentStack := stack_id }

/-- Address lookup in the live allocation index. -/
def lookupAlloc (a : Nat) : List AllocRecord → Option AllocRecord
  | [] => none
  | r :: rest => if r.address = a then some r else lookupAlloc a rest

/-- Modelled from the spec: `memview_msg_alloc` is missing from the
sources (only declared in `src/memview.h`); per §4.3 it inserts a record
into the live allocation index (keyed by address, so at most one record
per address): a double-alloc at a live address evicts the old record in
favour of the new one and queues a `ProtocolViolation` marker; a full
index evicts the oldest-inserted record and queues an eviction marker;
the operation is total — it never crashes. -/
def memview_msg_alloc (address size region : Nat) (c : Context) : Context :=
  match lookupAlloc address c.live with
  | some _ =>
      { c with
          live := c.live.filter (fun r => r.address ≠ address) ++
            [{ address := address, size := size, region := region,
               stackRef := c.currentStack }]
          wire := c.wire ++ [.protocolViolation, .allocRec address size region] }
  | none =>
      if c.live.length < c.liveCap then
        { c with
            live := c.live ++
              [{ address := address, size := size, region := region,
                 stackRef := c.currentStack }]
            wire := c.wire ++ [.allocRec address size region] }
      else
        { c with
            live := c.live.tail ++
              [{ address := address, size := size, region := region,
                 stackRef := c.currentStack }]
            wire := c.wire ++ [.evictionMarker, .allocRec address size region] }

/-- Modelled from the spec: `memview_msg_free` is missing from the
sources; per §4.3 it removes the live record for the address (the index
is keyed by address, so at most one record exists); freeing an untracked
address is a no-op save for a diagnostic counter. -/
def memview_msg_free (address : Nat) (c : Context) : Context :=
  match lookupAlloc address c.live with
  | some _ =>
      { c with
          live := c.live.filter (fun r => r.address ≠ address)
          wire := c.wire ++ [.freeRec address] }
  | none => { c with freeMisses := c.freeMisses + 1 }

/-- Modelled from the spec: `memview_msg_frame` is missing from the
sources; per §4.4 it closes the current frame and opens the next, tagged
with a monotonically increasing frame sequence number. -/
def memview_msg_frame (c : Context) : Context :=
  { c with
      wire := c.wire ++ [.frameBoundary c.frameSeq]
      frameSeq := c.frameSeq + 1 }

/-- One instrumentation event call of the session surface (§6). -/
inductive Op where
  | frame
  | stringid (s : List Nat)
  | stack (id : Nat) (s : List Nat)
  | alloc (address size region : Nat)
  | free (address : Nat)
deriving DecidableEq, Repr

/-- Apply one event call to the context (the identifier returned by
`stringid` is delivered to the caller and does not affect the state
transition). -/
def step (c : Context) : Op → Context
  | .frame => memview_msg_frame c
  | .stringid s => (memview_msg_stringid s c).2
  | .stack id s => memview_msg_stack id s c
  | .alloc a sz r => memview_msg_alloc a sz r c
  | .free a => memview_msg_free a c

/-- Run a session: a sequence of event calls applied in order. -/
def run (l : List Op) (c : Context) : Context := l.foldl step c

/-- C return types occurring in the public header. -/
inductive CReturnType where
  | void
  | int
  | uint64
deriving DecidableEq, Repr

/-- The ten functions declared in `src/memview.h`, the public interface. -/
inductive ApiFn where
  | calc_min_required_memory
  | init
  | deinit
  | wait_for_connection
  | pump_message_queue
  | msg_frame
  | msg_stringid
  | msg_stack
  | msg_alloc
  | msg_free
deriving DecidableEq, Repr, Fintype

/-- Return type of each declared function, transcribed from
`src/memview.h` lines 10-19. -/
def returnType : ApiFn → CReturnType
  | .calc_min_required_memory => .uint64
  | .init => .int
  | .deinit => .void
  | .wait_for_connection => .void
  | .pump_message_queue => .void
  | .msg_frame => .void
  | .msg_stringid => .uint64
  | .msg_stack => .void
  | .msg_alloc => .void
  | .msg_free => .void

/-- Claim C1: for every `bytes_for_stacktrace` budget, `memview_init` on a
fresh runtime succeeds with a buffer of exactly
`memview_calc_min_required_memory` bytes, and with a buffer one byte
smaller fails with `InsufficientBuffer`, a `ConfigurationError` status. -/
theorem init_exact_min_buffer (b : Nat) :
    (memview_init (memview_calc_min_required_memory b) b initialContext).1 = .Success ∧
    (memview_init (memview_calc_min_required_memory b - 1) b initialContext).1 =
      .InsufficientBuffer ∧
    Status.isConfigurationError .InsufficientBuffer = true := by
  have h : 0 < memview_calc_min_required_memory b := by
    unfold memview_calc_min_required_memory stringTableCapacity liveIndexCapacity
    omega
  refine ⟨?_, ?_, rfl⟩
  · unfold memview_init
    rw [if_neg (by decide), if_neg (by omega)]
  · unfold memview_init
    rw [if_neg (by decide), if_pos (by omega)]

/-- A successful `memview_init` leaves the context initialized. -/
theorem init_success_initialized (bs b : Nat) (c : Context)
    (h : (memview_init bs b c).1 = .Success) :
    ((memview_init bs b c).2).initialized = true := by
  unfold memview_init at h ⊢
  split_ifs at h ⊢
  all_goals simp_all

/-- Claim C7: a second `memview_init` without an intervening
`memview_deinit` fails with `AlreadyInitialized` and changes nothing, and
any failed `memview_init` leaves the context exactly as it was (no
partial state retained). -/
theorem init_double_and_no_partial_state (bs b bs2 b2 : Nat) (c : Context)
    (h : (memview_init bs b c).1 = .Success) :
    memview_init bs2 b2 (memview_init bs b c).2 =
      (.AlreadyInitialized, (memview_init bs b c).2) ∧
    ∀ bs3 b3 c3, (memview_init bs3 b3 c3).1 ≠ .Success →
      (memview_init bs3 b3 c3).2 = c3 := by
  constructor
  · have hi := init_success_initialized bs b c h
    set c1 := (memview_init bs b c).2 with hc1
    unfold memview_init
    rw [if_pos hi]
  · intro bs3 b3 c3 h3
    unfold memview_init at h3 ⊢
    split_ifs at h3 ⊢ <;> simp_all

/-- Concrete instance of `init_double_and_no_partial_state`: with a
64 KiB buffer and a 4096-byte stacktrace budget, the first `memview_init`
succeeds and the second fails with `AlreadyInitialized`. -/
theorem init_double_witness :
    memview_init 65536 4096 ((memview_init 65536 4096 initialContext).2) =
      (.AlreadyInitialized, (memview_init 65536 4096 initialContext).2) :=
  (init_double_and_no_partial_state 65536 4096 65536 4096 initialContext (by decide)).1

/-- Claim C8: `memview_calc_min_required_memory`, a total Lean function
(hence pure and deterministic), is monotone: a larger stacktrace budget
never requires less memory. -/
theorem calc_min_required_memory_monotone (a b : Nat) (h : a ≤ b) :
    memview_calc_min_required_memory a ≤ memview_calc_min_required_memory b := by
  unfold memview_calc_min_required_memory stringTableCapacity liveIndexCapacity
  have := Nat.div_le_div_right (c := 64) h
  omega

/-- Concrete instance of `calc_min_required_memory_monotone`. -/
theorem calc_min_required_memory_monotone_witness :
    3 ≤ 500 ∧
    memview_calc_min_required_memory 3 ≤ memview_calc_min_required_memory 500 :=
  ⟨by decide, calc_min_required_memory_monotone 3 500 (by decide)⟩

/-- Claim C10 counterexample: it is not the case that `memview_init` and
`memview_msg_stringid` are the only value-returning functions of the
public interface: `memview_calc_min_required_memory` returns `uint64_t`. -/
theorem only_init_stringid_return_value_false :
    ¬ ∀ f : ApiFn, returnType f ≠ .void → f = .init ∨ f = .msg_stringid := by
  decide

/-- Claim C10, amended: exactly `memview_init` (`int`),
`memview_msg_stringid` (`uint64_t`) and `memview_calc_min_required_memory`
(`uint64_t`) return a value; the seven remaining functions — `deinit`,
`wait_for_connection`, `pump_message_queue`, `msg_frame`, `msg_stack`,
`msg_alloc`, `msg_free` — all return `void`, so no error or capacity
condition arising in those operations is reported through a return
value. -/
theorem void_return_surface :
    (∀ f : ApiFn, returnType f ≠ .void ↔
      (f = .init ∨ f = .msg_stringid ∨ f = .calc_min_required_memory)) ∧
    returnType .deinit = .void ∧
    returnType .wait_for_connection = .void ∧
    returnType .pump_message_queue = .void ∧
    returnType .msg_frame = .void ∧
    returnType .msg_stack = .void ∧
    returnType .msg_alloc = .void ∧
    returnType .msg_free = .void := by
  decide

/-- Recognizer for `ProtocolViolation` markers on the wire. -/
def isViolation : WireRecord → Bool
  | .protocolViolation => true
  | _ => false

/-- Number of `ProtocolViolation` markers queued on the wire. -/
def countViolations (w : List WireRecord) : Nat := w.countP isViolation

/-- Recognizer for eviction markers on the wire. -/
def isEviction : WireRecord → Bool
  | .evictionMarker => true
  | _ => false

/-- Number of eviction markers queued on the wire. -/
def countEvictions (w : List WireRecord) : Nat := w.countP isEviction

/-- Branch equation: `memview_msg_alloc` at a live address. -/
theorem msg_alloc_found (A S R : Nat) (c : Context) (r : AllocRecord)
    (h : lookupAlloc A c.live = some r) :
    memview_msg_alloc A S R c =
      { c with
          live := c.live.filter (fun x => x.address ≠ A) ++
            [{ address := A, size := S, region := R, stackRef := c.currentStack }]
          wire := c.wire ++ [.protocolViolation, .allocRec A S R] } := by
  unfold memview_msg_alloc
  rw [h]

/-- Branch equation: `memview_msg_alloc` at a fresh address with room. -/
theorem msg_alloc_new_room (A S R : Nat) (c : Context)
    (h : lookupAlloc A c.live = none) (hcap : c.live.length < c.liveCap) :
    memview_msg_alloc A S R c =
      { c with
          live := c.live ++
            [{ address := A, size := S, region := R, stackRef := c.currentStack }]
          wire := c.wire ++ [.allocRec A S R] } := by
  unfold memview_msg_alloc
  rw [h, if_pos hcap]

/-- Branch equation: `memview_msg_alloc` at a fresh address, index full. -/
theorem msg_alloc_new_full (A S R : Nat) (c : Context)
    (h : lookupAlloc A c.live = none) (hcap : ¬ c.live.length < c.liveCap) :
    memview_msg_alloc A S R c =
      { c with
          live := c.live.tail ++
            [{ address := A, size := S, region := R, stackRef := c.currentStack }]
          wire := c.wire ++ [.evictionMarker, .allocRec A S R] } := by
  unfold memview_msg_alloc
  rw [h, if_neg hcap]

/-- Branch equation: `memview_msg_free` of a live address. -/
theorem msg_free_found (A : Nat) (c : Context) (r : AllocRecord)
    (h : lookupAlloc A c.live = some r) :
    memview_msg_free A c =
      { c with
          live := c.live.filter (fun x => x.address ≠ A)
          wire := c.wire ++ [.freeRec A] } := by
  unfold memview_msg_free
  rw [h]

/-- Branch equation: `memview_msg_free` of an untracked address. -/
theorem msg_free_missing (A : Nat) (c : Context)
    (h : lookupAlloc A c.live = none) :
    memview_msg_free A c = { c with freeMisses := c.freeMisses + 1 } := by
  unfold memview_msg_free
  rw [h]

/-- An address is absent from the live index iff no record carries it. -/
theorem lookupAlloc_eq_none_iff (a : Nat) (l : List AllocRecord) :
    lookupAlloc a l = none ↔ ∀ r ∈ l, r.address ≠ a := by
  induction l with
  | nil => simp [lookupAlloc]
  | cons r rest ih =>
    simp only [lookupAlloc]
    split_ifs with hr
    · simp [hr]
    · simp [ih, hr]

/-- A record with the sought address at the end of the index is found. -/
theorem lookupAlloc_append_isSome (a : Nat) (l : List AllocRecord) (r : AllocRecord)
    (hr : r.address = a) : (lookupAlloc a (l ++ [r])).isSome := by
  induction l with
  | nil => simp [lookupAlloc, hr]
  | cons x xs ih =>
    simp only [List.cons_append, lookupAlloc]
    split_ifs with hx
    · rfl
    · exact ih

/-- Filtering an address out of the index makes its lookup fail. -/
theorem lookupAlloc_filter_ne (a : Nat) (l : List AllocRecord) :
    lookupAlloc a (l.filter fun r => r.address ≠ a) = none := by
  rw [lookupAlloc_eq_none_iff]
  intro r hr
  simpa using (List.mem_filter.mp hr).2

/-- No record of the index matches an address absent from all of them. -/
theorem filter_addr_eq_nil (a : Nat) (l : List AllocRecord)
    (h : ∀ r ∈ l, r.address ≠ a) : l.filter (fun r => r.address = a) = [] := by
  induction l with
  | nil => rfl
  | cons r rest ih =>
    have hr : r.address ≠ a := h r (List.mem_cons_self r rest)
    simp only [List.filter_cons]
    rw [if_neg (by simpa using hr)]
    exact ih fun s hs => h s (List.mem_cons_of_mem r hs)

/-- In every branch, `memview_msg_alloc` appends the new record at the
end of the live index. -/
theorem alloc_live_shape (A S R : Nat) (c : Context) :
    ∃ X : List AllocRecord,
      (memview_msg_alloc A S R c).live =
        X ++ [{ address := A, size := S, region := R, stackRef := c.currentStack }] := by
  cases hl : lookupAlloc A c.live with
  | some r => rw [msg_alloc_found A S R c r hl]; exact ⟨_, rfl⟩
  | none =>
    by_cases hcap : c.live.length < c.liveCap
    · rw [msg_alloc_new_room A S R c hl hcap]; exact ⟨_, rfl⟩
    · rw [msg_alloc_new_full A S R c hl hcap]; exact ⟨_, rfl⟩

/-- Claim C3: allocating at an address and immediately freeing it leaves
the live allocation index with no entry for that address. -/
theorem alloc_then_free_no_entry (A S R : Nat) (c : Context) :
    lookupAlloc A (memview_msg_free A (memview_msg_alloc A S R c)).live = none := by
  obtain ⟨X, hX⟩ := alloc_live_shape A S R c
  have hsome : (lookupAlloc A (memview_msg_alloc A S R c).live).isSome := by
    rw [hX]; exact lookupAlloc_append_isSome A X _ rfl
  cases hf : lookupAlloc A (memview_msg_alloc A S R c).live with
  | none => rw [hf] at hsome; simp at hsome
  | some r =>
    rw [msg_free_found A _ r hf]
    exact lookupAlloc_filter_ne A _

/-- When the address is not yet live, `memview_msg_alloc` appends its
record to an index still free of that address, appends no
`ProtocolViolation` marker, and leaves the stack context unchanged. -/
theorem alloc_not_live (A S R : Nat) (c : Context)
    (h : lookupAlloc A c.live = none) :
    ∃ X W, (memview_msg_alloc A S R c).live =
        X ++ [{ address := A, size := S, region := R, stackRef := c.currentStack }] ∧
      (∀ r ∈ X, r.address ≠ A) ∧
      (memview_msg_alloc A S R c).wire = c.wire ++ W ∧
      countViolations W = 0 ∧
      (memview_msg_alloc A S R c).currentStack = c.currentStack := by
  have habs := (lookupAlloc_eq_none_iff A c.live).mp h
  by_cases hcap : c.live.length < c.liveCap
  · rw [msg_alloc_new_room A S R c h hcap]
    exact ⟨c.live, [.allocRec A S R], rfl, habs, rfl,
      by simp [countViolations, isViolation], rfl⟩
  · rw [msg_alloc_new_full A S R c h hcap]
    refine ⟨c.live.tail, [.evictionMarker, .allocRec A S R], rfl, ?_, rfl,
      by simp [countViolations, isViolation], rfl⟩
    exact fun r hr => habs r (List.mem_of_mem_tail hr)

/-- Claim C4: a double alloc at the same address with no intervening free
leaves exactly one live entry for that address, carrying the second size
and region (the first record is evicted from the index), and queues
exactly one `ProtocolViolation` marker; both calls are total functions,
so the runtime cannot crash on this case. -/
theorem double_alloc_evicts_and_flags (A S1 R1 S2 R2 : Nat) (c : Context)
    (h : lookupAlloc A c.live = none) :
    (memview_msg_alloc A S2 R2 (memview_msg_alloc A S1 R1 c)).live.filter
        (fun r => r.address = A) =
      [{ address := A, size := S2, region := R2, stackRef := c.currentStack }] ∧
    countViolations (memview_msg_alloc A S2 R2 (memview_msg_alloc A S1 R1 c)).wire =
      countViolations c.wire + 1 := by
  obtain ⟨X, W, hlive, habs, hwire, hW, hstk⟩ := alloc_not_live A S1 R1 c h
  have hfound : (lookupAlloc A (memview_msg_alloc A S1 R1 c).live).isSome := by
    rw [hlive]; exact lookupAlloc_append_isSome A X _ rfl
  cases hf : lookupAlloc A (memview_msg_alloc A S1 R1 c).live with
  | none => rw [hf] at hfound; simp at hfound
  | some r =>
    rw [msg_alloc_found A S2 R2 _ r hf]
    constructor
    · rw [List.filter_append, filter_addr_eq_nil]
      · simp [hstk]
      · intro s hs
        simpa using (List.mem_filter.mp hs).2
    · show countViolations ((memview_msg_alloc A S1 R1 c).wire ++
        [.protocolViolation, .allocRec A S2 R2]) = countViolations c.wire + 1
      rw [hwire, countViolations, List.countP_append, List.countP_append]
      simp only [countViolations] at hW
      simp [countViolations, isViolation, List.countP_cons, hW]

/-- Concrete instance of `double_alloc_evicts_and_flags` at address 4096
with sizes 128 and 256. -/
theorem double_alloc_witness :
    lookupAlloc 4096 initialContext.live = none ∧
    (memview_msg_alloc 4096 256 9
        (memview_msg_alloc 4096 128 7 initialContext)).live.filter
        (fun r => r.address = 4096) =
      [{ address := 4096, size := 256, region := 9, stackRef := 0 }] :=
  ⟨by decide,
    (double_alloc_evicts_and_flags 4096 128 7 256 9 initialContext (by decide)).1⟩

/-- A successful lookup returns a member carrying the sought address. -/
theorem lookupAlloc_some_mem (a : Nat) (l : List AllocRecord) (r : AllocRecord)
    (h : lookupAlloc a l = some r) : r ∈ l ∧ r.address = a := by
  induction l with
  | nil => simp [lookupAlloc] at h
  | cons x xs ih =>
    simp only [lookupAlloc] at h
    split_ifs at h with hx
    · injection h with h2
      subst h2
      exact ⟨List.mem_cons_self _ _, hx⟩
    · obtain ⟨hm, ha⟩ := ih h
      exact ⟨List.mem_cons_of_mem x hm, ha⟩

/-- No event call changes the live-index capacity fixed at init. -/
theorem step_liveCap (c : Context) (op : Op) : (step c op).liveCap = c.liveCap := by
  cases op with
  | frame => rfl
  | stringid s =>
    simp only [step, memview_msg_stringid]
    split
    · rfl
    · split_ifs <;> rfl
  | stack id s =>
    simp only [step, memview_msg_stack]
    split
    · rfl
    · split_ifs <;> rfl
  | alloc a sz r =>
    simp only [step, memview_msg_alloc]
    split
    · rfl
    · split_ifs <;> rfl
  | free a =>
    simp only [step, memview_msg_free]
    split <;> rfl

/-- A whole session leaves the live-index capacity unchanged. -/
theorem run_liveCap (l : List Op) (c : Context) : (run l c).liveCap = c.liveCap := by
  induction l generalizing c with
  | nil => rfl
  | cons op rest ih =>
    show (run rest (step c op)).liveCap = c.liveCap
    rw [ih, step_liveCap]

/-- One event call keeps the number of live entries within capacity. -/
theorem step_live_len (c : Context) (op : Op) (hcap : 0 < c.liveCap)
    (hlen : c.live.length ≤ c.liveCap) : (step c op).live.length ≤ c.liveCap := by
  cases op with
  | frame => simpa [step, memview_msg_frame] using hlen
  | stringid s =>
    simp only [step, memview_msg_stringid]
    split
    · simpa using hlen
    · split_ifs <;> simpa using hlen
  | stack id s =>
    simp only [step, memview_msg_stack]
    split
    · simpa using hlen
    · split_ifs <;> simpa using hlen
  | free a =>
    simp only [step, memview_msg_free]
    split
    · simp only []
      exact le_trans (List.length_filter_le _ _) hlen
    · simpa using hlen
  | alloc a sz r =>
    simp only [step, memview_msg_alloc]
    split
    · rename_i rec heq
      obtain ⟨hm, ha⟩ := lookupAlloc_some_mem a c.live rec heq
      have hlt : (c.live.filter (fun x => x.address ≠ a)).length < c.live.length := by
        rw [List.length_filter_lt_length_iff_exists]
        exact ⟨rec, hm, by simp [ha]⟩
      simp only [List.length_append, List.length_cons, List.length_nil]
      omega
    · split_ifs with hroom
      · simp only [List.length_append, List.length_cons, List.length_nil]
        omega
      · have hne : c.live.length = c.liveCap := le_antisymm hlen (le_of_not_lt hroom)
        simp only [List.length_append, List.length_cons, List.length_nil,
          List.length_tail]
        omega

/-- Claim C5: the live allocation index never exceeds its capacity under
any sequence of event calls, and when the index is full a further alloc
at a fresh address evicts exactly the oldest-inserted entry (the head of
the insertion-ordered index), keeps the count at capacity, and emits
exactly one eviction marker. -/
theorem live_index_never_overflows (c : Context) (hcap : 0 < c.liveCap)
    (hlen : c.live.length ≤ c.liveCap) :
    (∀ l : List Op, (run l c).live.length ≤ (run l c).liveCap) ∧
    (∀ A S R, c.live.length = c.liveCap → lookupAlloc A c.live = none →
      (memview_msg_alloc A S R c).live =
        c.live.tail ++
          [{ address := A, size := S, region := R, stackRef := c.currentStack }] ∧
      (memview_msg_alloc A S R c).live.length = c.liveCap ∧
      countEvictions (memview_msg_alloc A S R c).wire =
        countEvictions c.wire + 1) := by
  constructor
  · intro l
    rw [run_liveCap]
    induction l generalizing c hcap hlen with
    | nil => exact hlen
    | cons op rest ih =>
      show (run rest (step c op)).live.length ≤ c.liveCap
      have h1 := step_live_len c op hcap hlen
      have h2 := step_liveCap c op
      have := ih (step c op) (h2 ▸ hcap) (h2 ▸ h1)
      rwa [h2] at this
  · intro A S R hfull habs
    have hroom : ¬ c.live.length < c.liveCap := by omega
    rw [msg_alloc_new_full A S R c habs hroom]
    refine ⟨rfl, ?_, ?_⟩
    · simp only [List.length_append, List.length_cons, List.length_nil,
        List.length_tail]
      omega
    · simp [countEvictions, isEviction, List.countP_append, List.countP_cons]

/-- Concrete instance of `live_index_never_overflows`: a context whose
one-slot index is full; one more alloc evicts the old entry, stays at
capacity, and emits one eviction marker. -/
theorem live_index_never_overflows_witness :
    (memview_msg_alloc 8 16 2
        { initialContext with
            liveCap := 1
            live := [{ address := 4, size := 8, region := 1, stackRef := 0 }] }).live =
      [{ address := 8, size := 16, region := 2, stackRef := 0 }] ∧
    countEvictions (memview_msg_alloc 8 16 2
        { initialContext with
            liveCap := 1
            live := [{ address := 4, size := 8, region := 1, stackRef := 0 }] }).wire = 1 := by
  have h := (live_index_never_overflows
    { initialContext with
        liveCap := 1
        live := [{ address := 4, size := 8, region := 1, stackRef := 0 }] }
    (by decide) (by decide)).2 8 16 2 (by decide) (by decide)
  exact ⟨h.1, h.2.2⟩

/-- The frame-boundary sequence numbers appearing on the wire, in
emission order. -/
def frameTags (w : List WireRecord) : List Nat :=
  w.filterMap fun r =>
    match r with
    | .frameBoundary n => some n
    | _ => none


/-- Extending the wire with records carrying no frame boundary, without
decreasing the next frame number, preserves the frame-tag invariant. -/
theorem tags_invariant_extend (c c' : Context) (w : List WireRecord)
    (hw : frameTags w = []) (hwire : c'.wire = c.wire ++ w)
    (hseq : c.frameSeq ≤ c'.frameSeq)
    (h1 : (frameTags c.wire).Pairwise (· < ·))
    (h2 : ∀ t ∈ frameTags c.wire, t < c.frameSeq) :
    (frameTags c'.wire).Pairwise (· < ·) ∧
    ∀ t ∈ frameTags c'.wire, t < c'.frameSeq := by
  rw [hwire, frameTags, List.filterMap_append, ← frameTags, ← frameTags, hw,
    List.append_nil]
  exact ⟨h1, fun t ht => lt_of_lt_of_le (h2 t ht) hseq⟩

/-- One event call preserves the frame-tag invariant: tags emitted so far
are strictly increasing and all lie below the next frame number. -/
theorem step_frameTags (c : Context) (op : Op)
    (h1 : (frameTags c.wire).Pairwise (· < ·))
    (h2 : ∀ t ∈ frameTags c.wire, t < c.frameSeq) :
    (frameTags (step c op).wire).Pairwise (· < ·) ∧
    ∀ t ∈ frameTags (step c op).wire, t < (step c op).frameSeq := by
  have hone : frameTags [WireRecord.frameBoundary c.frameSeq] = [c.frameSeq] := rfl
  cases op with
  | frame =>
    constructor
    · show (frameTags (c.wire ++ [.frameBoundary c.frameSeq])).Pairwise (· < ·)
      rw [frameTags, List.filterMap_append, ← frameTags, ← frameTags, hone]
      rw [List.pairwise_append]
      refine ⟨h1, List.pairwise_singleton _ _, ?_⟩
      intro a ha b hb
      rw [List.mem_singleton.mp hb]
      exact h2 a ha
    · show ∀ t ∈ frameTags (c.wire ++ [.frameBoundary c.frameSeq]), t < c.frameSeq + 1
      rw [frameTags, List.filterMap_append, ← frameTags, ← frameTags, hone]
      intro t ht
      rcases List.mem_append.mp ht with hl | hr
      · exact lt_trans (h2 t hl) (Nat.lt_succ_self _)
      · rw [List.mem_singleton.mp hr]
        omega
  | stringid s =>
    simp only [step, memview_msg_stringid]
    split
    · exact tags_invariant_extend c _ [.stringRef _] rfl rfl le_rfl h1 h2
    · split_ifs
      · exact tags_invariant_extend c _ [.stringDefine _ _] rfl rfl le_rfl h1 h2
      · exact tags_invariant_extend c _ [] rfl (by simp) le_rfl h1 h2
      · exact tags_invariant_extend c _ [.tableFullMarker] rfl rfl le_rfl h1 h2
  | stack id s =>
    simp only [step, memview_msg_stack]
    split
    · exact tags_invariant_extend c _ [.stackDefine _ _] rfl rfl le_rfl h1 h2
    · split_ifs
      · exact tags_invariant_extend c _ [.stackRef _] rfl rfl le_rfl h1 h2
      · exact tags_invariant_extend c _ [.protocolViolation] rfl rfl le_rfl h1 h2
  | alloc a sz r =>
    simp only [step, memview_msg_alloc]
    split
    · exact tags_invariant_extend c _ [.protocolViolation, .allocRec a sz r]
        rfl rfl le_rfl h1 h2
    · split_ifs
      · exact tags_invariant_extend c _ [.allocRec a sz r] rfl rfl le_rfl h1 h2
      · exact tags_invariant_extend c _ [.evictionMarker, .allocRec a sz r]
          rfl rfl le_rfl h1 h2
  | free a =>
    simp only [step, memview_msg_free]
    split
    · exact tags_invariant_extend c _ [.freeRec a] rfl rfl le_rfl h1 h2
    · exact tags_invariant_extend c _ [] rfl (by simp) le_rfl h1 h2

/-- The frame-tag invariant holds after any whole session. -/
theorem run_frameTags (l : List Op) (c : Context)
    (h1 : (frameTags c.wire).Pairwise (· < ·))
    (h2 : ∀ t ∈ frameTags c.wire, t < c.frameSeq) :
    (frameTags (run l c).wire).Pairwise (· < ·) := by
  induction l generalizing c with
  | nil => exact h1
  | cons op rest ih =>
    obtain ⟨g1, g2⟩ := step_frameTags c op h1 h2
    exact ih (step c op) g1 g2

/-- Claim C6: within one session, the frame sequence numbers emitted by
successive `memview_msg_frame` calls are strictly increasing: across any
sequence of event calls after init, every later frame boundary on the
wire carries a strictly greater number, so frame numbers never repeat and
never go backward. -/
theorem frame_seq_strictly_increasing (bs b : Nat) (l : List Op) :
    (frameTags (run l (memview_init bs b initialContext).2).wire).Pairwise (· < ·) := by
  have hwire : (memview_init bs b initialContext).2.wire = [] := by
    unfold memview_init
    rw [if_neg (by decide)]
    split_ifs <;> rfl
  apply run_frameTags
  · rw [hwire]; simp [frameTags]
  · rw [hwire]; simp [frameTags]

/-- Recognizer for "define string" records carrying the given bytes. -/
def isDefineOf (s : List Nat) : WireRecord → Bool
  | .stringDefine _ t => decide (t = s)
  | _ => false

/-- Number of "define string" records for the given bytes on the wire. -/
def defineCount (s : List Nat) (w : List WireRecord) : Nat :=
  w.countP (isDefineOf s)

/-- Submit a list of string contents to `memview_msg_stringid` in order,
collecting the returned identifiers. -/
def runStringids : List (List Nat) → Context → List Nat × Context
  | [], c => ([], c)
  | s :: rest, c =>
    ((memview_msg_stringid s c).1 ::
        (runStringids rest (memview_msg_stringid s c).2).1,
      (runStringids rest (memview_msg_stringid s c).2).2)

/-- Branch equation: `memview_msg_stringid` on an interned content. -/
theorem msg_stringid_hit (s : List Nat) (c : Context) (id : Nat)
    (h : lookupString s c.strings = some id) :
    memview_msg_stringid s c = (id, { c with wire := c.wire ++ [.stringRef id] }) := by
  unfold memview_msg_stringid
  rw [h]

/-- Branch equation: `memview_msg_stringid` on new content with room. -/
theorem msg_stringid_miss_room (s : List Nat) (c : Context)
    (h : lookupString s c.strings = none) (hcap : c.strings.length < c.stringCap) :
    memview_msg_stringid s c =
      (c.nextStringId,
        { c with
            strings := c.strings ++ [(s, c.nextStringId)]
            nextStringId := c.nextStringId + 1
            wire := c.wire ++ [.stringDefine c.nextStringId s] }) := by
  unfold memview_msg_stringid
  rw [h, if_pos hcap]

/-- Inserting new content at the end of the table makes it found. -/
theorem lookupString_append_self (s : List Nat) (l : List (List Nat × Nat)) (id : Nat)
    (h : lookupString s l = none) : lookupString s (l ++ [(s, id)]) = some id := by
  induction l with
  | nil => simp [lookupString]
  | cons p rest ih =>
    obtain ⟨t, j⟩ := p
    simp only [lookupString] at h
    simp only [List.cons_append, lookupString]
    by_cases ht : t = s
    · rw [if_pos ht] at h
      exact absurd h (Option.some_ne_none j)
    · rw [if_neg ht] at h
      rw [if_neg ht]
      exact ih h

/-- Repeated submissions of already-interned content always return its
identifier and never add "define string" records for it. -/
theorem runStringids_hit (k : Nat) (c : Context) (s : List Nat) (id : Nat)
    (h : lookupString s c.strings = some id) :
    (∀ i ∈ (runStringids (List.replicate k s) c).1, i = id) ∧
    defineCount s (runStringids (List.replicate k s) c).2.wire =
      defineCount s c.wire := by
  induction k generalizing c with
  | zero => exact ⟨by simp [runStringids], rfl⟩
  | succ n ih =>
    rw [List.replicate_succ]
    simp only [runStringids]
    rw [msg_stringid_hit s c id h]
    have h' : lookupString s
        ({ c with wire := c.wire ++ [WireRecord.stringRef id] }).strings = some id := h
    obtain ⟨ih1, ih2⟩ := ih _ h'
    constructor
    · intro i hi
      rcases List.mem_cons.mp hi with rfl | hi'
      · rfl
      · exact ih1 i hi'
    · rw [ih2]
      show defineCount s (c.wire ++ [.stringRef id]) = defineCount s c.wire
      simp [defineCount, isDefineOf, List.countP_append, List.countP_cons]

/-- Claim C2: submitting the same byte content N ≥ 1 times to
`memview_msg_stringid` (starting from a state where the content is not
yet interned, no define record for it has been emitted, and the intern
table has room) returns the same identifier on every call, and the
"define string" record carrying the raw bytes is emitted exactly once
across those calls. -/
theorem stringid_same_id_define_once (c : Context) (s : List Nat) (N : Nat)
    (hN : 1 ≤ N)
    (habs : lookupString s c.strings = none)
    (hdef : defineCount s c.wire = 0)
    (hcap : c.strings.length < c.stringCap) :
    (∀ i ∈ (runStringids (List.replicate N s) c).1, i = c.nextStringId) ∧
    defineCount s (runStringids (List.replicate N s) c).2.wire = 1 := by
  obtain ⟨n, rfl⟩ : ∃ n, N = n + 1 := ⟨N - 1, by omega⟩
  rw [List.replicate_succ]
  simp only [runStringids]
  rw [msg_stringid_miss_room s c habs hcap]
  have h1 : lookupString s
      ({ c with
          strings := c.strings ++ [(s, c.nextStringId)]
          nextStringId := c.nextStringId + 1
          wire := c.wire ++ [WireRecord.stringDefine c.nextStringId s] }).strings =
        some c.nextStringId :=
    lookupString_append_self s c.strings c.nextStringId habs
  obtain ⟨ih1, ih2⟩ := runStringids_hit n _ s c.nextStringId h1
  constructor
  · intro i hi
    rcases List.mem_cons.mp hi with rfl | hi'
    · rfl
    · exact ih1 i hi'
  · rw [ih2]
    show defineCount s (c.wire ++ [.stringDefine c.nextStringId s]) = 1
    simp [defineCount, isDefineOf, List.countP_append, List.countP_cons]
    simpa [defineCount] using hdef

/-- Concrete instance of `stringid_same_id_define_once`: interning the
bytes of "foo" three times in a fresh session emits exactly one define
record. -/
theorem stringid_same_id_define_once_witness :
    1 ≤ 3 ∧
    defineCount [102, 111, 111]
      (runStringids (List.replicate 3 [102, 111, 111])
        (memview_init 65536 4096 initialContext).2).2.wire = 1 :=
  ⟨by decide,
    (stringid_same_id_define_once (memview_init 65536 4096 initialContext).2
      [102, 111, 111] 3 (by decide) (by decide) (by decide) (by decide)).2⟩
